import Mathlib

/-!
Verification of the nlp-insights medication derivation and concept location
modules.

The embedded code comes from
`nlp_insights/nlp/acd/fhir_enrichment/insights/create_medication.py` and
`nlp_insights/insight_source/fields_of_interest.py`.  Python dictionaries with
insertion order are modelled as association lists, exceptions as `Except`,
and `None`-able values as `Option`.  Identifiers keep the Python names except
where noted in a doc comment.
-/

namespace NlpInsights

/-- A FHIR coding entry: (system, code, display). -/
structure Coding where
  system : String
  code : String
  display : Option String
deriving DecidableEq, Repr

/-- A FHIR codeable concept as built by the medication builder:
free text plus a list of coding entries. -/
structure CodeableConcept where
  text : Option String
  coding : List Coding
deriving DecidableEq, Repr

/-- The innermost drug dictionary extracted from an ACD medication
annotation (`annotation.drug[0]["name1"][0]`).  The three keys read by the
builder are modelled as optional fields; an absent key is `none`.
`AcdDrug.empty` plays the role of the empty dict `{}` returned by the
exception handler of `_get_drug_from_annotation`. -/
structure AcdDrug where
  cui : Option String
  rxNormID : Option String
  drugSurfaceForm : Option String
deriving DecidableEq, Repr

/-- The empty dictionary `{}`. -/
def AcdDrug.empty : AcdDrug := ⟨none, none, none⟩

/-- One element of the `drug` list of a medication annotation;
its `name1` key may be absent or hold a (possibly empty) list. -/
structure DrugEntry where
  name1 : Option (List AcdDrug)
deriving DecidableEq, Repr

/-- `acd.MedicationAnnotation` (name shortened): carries the concept
identifier `cui` and the nested `drug` payload.  A `drug` value of `none`
models a missing/None payload. -/
structure MedicationAnn where
  cui : String
  drug : Option (List DrugEntry)
deriving DecidableEq, Repr

/-- `AttrSourceConcept` from `attribute_source_cui`: the values of the
`sources` mapping.  The builder only understands the medication variant;
any other annotation kind is modelled by `other`. -/
inductive AttrSourceConcept where
  | medication (m : MedicationAnn)
  | other (kind : String)
deriving DecidableEq, Repr

/-- The span fields of `acd.AttributeValueAnnotation` that the builder
reads (`begin`, `end`, `covered_text`; field names adjusted because `end`
is reserved). -/
structure Attr where
  begin_ : Nat
  end_ : Nat
  covered_text : String
deriving DecidableEq, Repr

/-- One element yielded by `get_attribute_sources`: the attribute plus the
insertion-ordered mapping from concept identifier to the annotation that
justifies it. -/
structure AttributeSource where
  attr : Attr
  sources : List (String × AttrSourceConcept)
deriving DecidableEq, Repr

/-- A text span (`nlp_insights.insight.span.Span`). -/
structure Span where
  begin_ : Nat
  end_ : Nat
  covered_text : String
deriving DecidableEq, Repr

/-- One insight attached to a medication statement's metadata by
`fhir_object_utils.add_insight_to_meta`: the allocator-issued id together
with the text span of the mention.  Confidence scores and the evaluated
NLP output are opaque to the properties verified here and are omitted. -/
structure InsightRec where
  insight_id : Nat
  span : Span
deriving DecidableEq, Repr

/-- The fields of a derived FHIR MedicationStatement that the builder
writes: subject, status, the medication codeable concept, the insights
attached to `meta`, and the number of derived-by-NLP category extensions
appended to it. -/
structure MedicationStatement where
  subject : String
  status : String
  medicationCodeableConcept : CodeableConcept
  insights : List InsightRec
  derivedByNlpCategoryCount : Nat
deriving DecidableEq, Repr

/-- `hl7.UMLS_URL` (constant from `nlp_insights.fhir.code_system.hl7`,
outside the provided sources; only its distinctness from the RxNorm url
matters). -/
def UMLS_URL : String := "http://terminology.hl7.org/CodeSystem/umls"

/-- `hl7.RXNORM_URL`. -/
def RXNORM_URL : String := "http://www.nlm.nih.gov/research/umls/rxnorm"

/-- Modelled from the spec: `fhir_object_utils.append_coding` is not among
the provided sources.  Per the spec's global invariant, a (code-system,
code-value) pair already present in the coding list is not re-added;
otherwise a new coding entry is appended. -/
def append_coding (codeable_concept : CodeableConcept)
    (system : String) (code : String) (display : Option String) :
    CodeableConcept :=
  if codeable_concept.coding.any fun cd => cd.system == system && cd.code == code then
    codeable_concept
  else
    { codeable_concept with
      coding := codeable_concept.coding ++ [⟨system, code, display⟩] }

/-- `_get_drug_from_annotation` (name shortened): returns
`annotation.drug[0].get("name1")[0]`, and returns the empty dict `{}` when
that expression raises TypeError, IndexError or AttributeError (missing
`drug`, empty lists, missing `name1`). -/
def _get_drug_from_ann (ann : MedicationAnn) : AcdDrug :=
  match ann.drug with
  | some (entry :: _) =>
      match entry.name1 with
      | some (d :: _) => d
      | _ => AcdDrug.empty
  | _ => AcdDrug.empty

/-- `_add_codings_drug`: appends a single UMLS coding when the drug has a
non-None `cui` (display is the drug surface form), then one RxNorm coding
per comma-separated token of `rxNormID` when that key is present. -/
def _add_codings_drug (acd_drug : AcdDrug) (codeable_concept : CodeableConcept) :
    CodeableConcept :=
  let cc1 :=
    match acd_drug.cui with
    | some c => append_coding codeable_concept UMLS_URL c acd_drug.drugSurfaceForm
    | none => codeable_concept
  match acd_drug.rxNormID with
  | some s =>
      (s.splitOn ",").foldl (fun acc code_id => append_coding acc RXNORM_URL code_id none) cc1
  | none => cc1

/-- `_update_codings`: updates the statement's codeable concept with the
drug information of the annotation. -/
def _update_codings (med_statement : MedicationStatement) (ann : MedicationAnn) :
    MedicationStatement :=
  { med_statement with
    medicationCodeableConcept :=
      _add_codings_drug ( _get_drug_from_ann ann) med_statement.medicationCodeableConcept }

/-- `_add_insight_to_medication_statement`: attaches one insight record
(id + text span of the attribute) to the statement's metadata and then
updates the codings from the annotation.  The insight-id extension,
confidence scores and NLP output extension do not affect the verified
properties and are represented by the id and span alone. -/
def _add_insight_to_medication_statement (med_statement : MedicationStatement)
    (attr : Attr) (med_ind : MedicationAnn) (insight_id : Nat) :
    MedicationStatement :=
  let withInsight :=
    { med_statement with
      insights :=
        med_statement.insights ++
          [⟨insight_id, ⟨attr.begin_, attr.end_, attr.covered_text⟩⟩] }
  _update_codings withInsight med_ind

/-- `_create_minimum_medication_statement`: a new statement with status
"unknown" and a codeable concept whose text is the drug surface form of
the annotation's drug payload. -/
def _create_minimum_medication_statement (subject : String) (ann : MedicationAnn) :
    MedicationStatement :=
  let acd_drug := _get_drug_from_ann ann
  { subject := subject
    status := "unknown"
    medicationCodeableConcept := { text := acd_drug.drugSurfaceForm, coding := [] }
    insights := []
    derivedByNlpCategoryCount := 0 }

/-- A `TrackerEntry` of `create_med_statements_from_insights`: the derived
statement plus the state of its insight-id generator.  The generator
`insight_id_maker_derive_resource` (outside the provided sources) is
modelled from the spec as a counter: it yields its current value and
advances by one on each pull, starting at `insight_id_start`. -/
structure TrackerEntry where
  fhir_resource : MedicationStatement
  id_maker : Nat
deriving DecidableEq, Repr

/-- The tracker: a Python dict keyed by UMLS ID, modelled as an
insertion-ordered association list. -/
def Tracker := List (String × TrackerEntry)

/-- Membership test of a cui in the tracker (`med_ind.cui not in tracker`). -/
def hasKey (c : String) (tracker : List (String × TrackerEntry)) : Bool :=
  tracker.any fun e => e.1 == c

/-- The `if med_ind.cui not in med_statement_tracker` branch: create a new
minimal statement with a fresh id maker for an unseen cui. -/
def trackIfNew (subject : String) (insight_id_start : Nat)
    (tracker : List (String × TrackerEntry)) (med_ind : MedicationAnn) :
    List (String × TrackerEntry) :=
  if hasKey med_ind.cui tracker then tracker
  else
    tracker ++
      [(med_ind.cui,
        { fhir_resource := _create_minimum_medication_statement subject med_ind
          id_maker := insight_id_start })]

/-- The body after the tracker lookup: `next(id_maker)` is pulled and
`_add_insight_to_medication_statement` runs against the tracked statement
(which Python mutates in place; here the entry is rebuilt). -/
def addMention (attr : Attr) (med_ind : MedicationAnn)
    (tracker : List (String × TrackerEntry)) : List (String × TrackerEntry) :=
  tracker.map fun e =>
    if e.1 = med_ind.cui then
      (e.1,
        { fhir_resource :=
            _add_insight_to_medication_statement e.2.fhir_resource attr med_ind e.2.id_maker
          id_maker := e.2.id_maker + 1 })
    else e

/-- The error message of the `NotImplementedError` raised for a
non-medication source annotation. -/
def notImplementedMsg : String :=
  "Only support MedicationAnnotation CUI source at this time"

/-- One iteration of the `for cui_source in get_attribute_sources(...)`
loop: an empty `sources` mapping is logged and skipped; otherwise the
first value of the mapping is taken (`next(iter(cui_source.sources.values()))`),
a non-medication annotation raises `NotImplementedError`, and a medication
annotation is tracked and its mention added. -/
def processSource (subject : String) (insight_id_start : Nat)
    (tracker : List (String × TrackerEntry)) (cui_source : AttributeSource) :
    Except String (List (String × TrackerEntry)) :=
  match cui_source.sources with
  | [] => Except.ok tracker
  | (_, AttrSourceConcept.other _) :: _ => Except.error notImplementedMsg
  | (_, AttrSourceConcept.medication med_ind) :: _ =>
      Except.ok (addMention cui_source.attr med_ind (trackIfNew subject insight_id_start tracker med_ind))

/-- The whole loop of `create_med_statements_from_insights`, folded over
the sequence produced by `get_attribute_sources` (that resolver is outside
the provided sources, so its output is the input here). -/
def create_loop (subject : String) (insight_id_start : Nat) :
    List AttributeSource → List (String × TrackerEntry) →
    Except String (List (String × TrackerEntry))
  | [], tracker => Except.ok tracker
  | cui_source :: rest, tracker =>
      match processSource subject insight_id_start tracker cui_source with
      | Except.error e => Except.error e
      | Except.ok t => create_loop subject insight_id_start rest t

/-- Modelled from the spec:
`fhir_object_utils.append_derived_by_nlp_category_extension` is outside the
provided sources; per the spec it tags a derived record with one
derived-by-NLP category marker. -/
def append_derived_by_nlp_category_extension (med_statement : MedicationStatement) :
    MedicationStatement :=
  { med_statement with
    derivedByNlpCategoryCount := med_statement.derivedByNlpCategoryCount + 1 }

/-- `create_med_statements_from_insights`: runs the loop on the attribute
sources; returns `none` when the tracker stayed empty, otherwise the
tracked statements, each tagged with the derived-by-NLP category
extension. -/
def create_med_statements_from_insights (subject : String) (insight_id_start : Nat)
    (attr_sources : List AttributeSource) :
    Except String (Option (List MedicationStatement)) :=
  match create_loop subject insight_id_start attr_sources [] with
  | Except.error e => Except.error e
  | Except.ok tracker =>
      if tracker.isEmpty then Except.ok none
      else
        Except.ok (some ((tracker.map fun e => e.2.fhir_resource).map
          append_derived_by_nlp_category_extension))

/-! ### `insight_source/fields_of_interest.py` -/

/-- `CodeableConceptRefType`. -/
inductive CodeableConceptRefType where
  | ALLERGEN
  | CONDITION
deriving DecidableEq, Repr

/-- A codeable concept on a source record, as read by the concept locator
(only its `text` field is inspected). -/
structure CodeableConceptF where
  text : Option String
deriving DecidableEq, Repr

/-- `fhir.resources` AllergyIntolerance: its optional `code` field. -/
structure AllergyIntoleranceR where
  code : Option CodeableConceptF
deriving DecidableEq, Repr

/-- `fhir.resources` Condition: its optional `code` field. -/
structure ConditionR where
  code : Option CodeableConceptF
deriving DecidableEq, Repr

/-- The payload of a resource object, independent of its runtime class. -/
inductive ResourceData where
  | allergy (a : AllergyIntoleranceR)
  | condition (c : ConditionR)
  | otherResource (name : String)
deriving DecidableEq, Repr

/-- The exact runtime class of a resource, as seen by Python's
`type(resource)`.  `conditionSubclass` stands for a proper subclass of
`Condition`: a distinct runtime type whose instances still carry
condition-shaped data. -/
inductive RClass where
  | allergyIntoleranceClass
  | conditionClass
  | conditionSubclass
  | otherClass (name : String)
deriving DecidableEq, Repr

/-- A resource object: its exact runtime class plus its data. -/
structure Resource where
  runtimeClass : RClass
  data : ResourceData
deriving DecidableEq, Repr

/-- `CodeableConceptRef`: a reference with metadata to a codeable concept
to be analyzed (the `path_text`/`path_coding` helpers are not needed by
the verified properties). -/
structure CodeableConceptRef where
  type : CodeableConceptRefType
  code_ref : CodeableConceptF
  path : String
  resource : ResourceData
deriving DecidableEq, Repr

/-- Python truthiness of an optional string: `None` and `""` are falsy. -/
def pyTruthyText : Option String → Bool
  | some s => !s.isEmpty
  | none => false

/-- The AttributeError raised by `allergy_intolerance.code.text` when
`code` is `None`. -/
def attributeErrMsg : String :=
  "AttributeError: NoneType object has no attribute text"

/-- `_get_allergy_intolerance_concepts_to_analyze`: reads
`allergy_intolerance.code.text` without first checking `code` for `None`,
so an absent `code` raises an AttributeError (modelled as `Except.error`). -/
def _get_allergy_intolerance_concepts_to_analyze
    (allergy_intolerance : AllergyIntoleranceR) :
    Except String (List CodeableConceptRef) :=
  match allergy_intolerance.code with
  | none => Except.error attributeErrMsg
  | some cc =>
      if pyTruthyText cc.text then
        Except.ok
          [{ type := CodeableConceptRefType.ALLERGEN
             code_ref := cc
             path := "AllergyIntolerance.code"
             resource := ResourceData.allergy allergy_intolerance }]
      else Except.ok []

/-- `_get_condition_concepts_to_analyze`: guarded by
`condition.code and condition.code.text`, so it cannot raise. -/
def _get_condition_concepts_to_analyze (condition : ConditionR) :
    List CodeableConceptRef :=
  match condition.code with
  | some cc =>
      if pyTruthyText cc.text then
        [{ type := CodeableConceptRefType.CONDITION
           code_ref := cc
           path := "Condition.code"
           resource := ResourceData.condition condition }]
      else []
  | none => []

/-- The allergy extractor as stored in the dispatch mapping.  The
fall-through branch is unreachable through the dispatch table, which only
applies it to objects of the AllergyIntolerance class. -/
def allergyExtractor (r : Resource) : Except String (List CodeableConceptRef) :=
  match r.data with
  | ResourceData.allergy a => _get_allergy_intolerance_concepts_to_analyze a
  | _ => Except.ok []

/-- The condition extractor as stored in the dispatch mapping. -/
def conditionExtractor (r : Resource) : Except String (List CodeableConceptRef) :=
  match r.data with
  | ResourceData.condition c => Except.ok (_get_condition_concepts_to_analyze c)
  | _ => Except.ok []

/-- `_concept_extractors`: the module-level dispatch dict, keyed by the
exact resource class. -/
def _concept_extractors :
    List (RClass × (Resource → Except String (List CodeableConceptRef))) :=
  [(RClass.allergyIntoleranceClass, allergyExtractor),
   (RClass.conditionClass, conditionExtractor)]

/-- `get_concepts_for_nlp_analysis`: picks the extractor mapping (the
default when the argument is `None` or an empty — hence falsy — dict),
looks up the exact runtime class of the resource, and returns `[]` when
no extractor is registered for it. -/
def get_concepts_for_nlp_analysis (resource : Resource)
    (concept_extractors :
      Option (List (RClass × (Resource → Except String (List CodeableConceptRef))))) :
    Except String (List CodeableConceptRef) :=
  let extractors :=
    match concept_extractors with
    | some l => if l.isEmpty then _concept_extractors else l
    | none => _concept_extractors
  match extractors.find? fun e => decide (e.1 = resource.runtimeClass) with
  | some e => e.2 resource
  | none => Except.ok []

/-! ### Verification-layer definitions -/

/-- The medication annotation the loop would select for an attribute
source: the first value of its `sources` mapping, when that value is a
medication annotation. -/
def firstMedAnn (cui_source : AttributeSource) : Option MedicationAnn :=
  match cui_source.sources with
  | (_, AttrSourceConcept.medication m) :: _ => some m
  | _ => none

/-- The concept identifier under which the loop files an attribute source. -/
def firstMedCui (cui_source : AttributeSource) : Option String :=
  (firstMedAnn cui_source).map (·.cui)

/-- Number of mentions of concept identifier `c` in a list of attribute
sources: sources whose selected annotation is a medication annotation
with cui `c`. -/
def countMentions (c : String) (l : List AttributeSource) : Nat :=
  l.countP fun cui_source => decide (firstMedCui cui_source = some c)

/-- The keys (concept identifiers) of the tracker, in insertion order. -/
def trackerKeys (tracker : List (String × TrackerEntry)) : List String :=
  tracker.map Prod.fst

/-- Number of tracker entries filed under concept identifier `c`. -/
def keyCount (c : String) (tracker : List (String × TrackerEntry)) : Nat :=
  (trackerKeys tracker).count c

/-- Total number of insights attached to the tracker entries filed under
concept identifier `c`. -/
def insightsOf (c : String) : List (String × TrackerEntry) → Nat
  | [] => 0
  | e :: rest =>
      (if e.1 = c then e.2.fhir_resource.insights.length else 0) + insightsOf c rest

/-- The (system, code) pairs of a codeable concept's coding list. -/
def codingKeys (codeable_concept : CodeableConcept) : List (String × String) :=
  codeable_concept.coding.map fun cd => (cd.system, cd.code)

/-- A tracker entry whose coding list has no duplicate (system, code)
pair. -/
def entryCodingOk (e : String × TrackerEntry) : Prop :=
  (codingKeys e.2.fhir_resource.medicationCodeableConcept).Nodup

/-- An attribute source whose first available source annotation is not a
medication annotation (the shape that raises `NotImplementedError`). -/
def badFirst (cui_source : AttributeSource) : Bool :=
  match cui_source.sources with
  | (_, AttrSourceConcept.other _) :: _ => true
  | _ => false

/-- A medication annotation whose nested drug payload is malformed: the
`drug[0].get("name1")[0]` extraction raises TypeError, IndexError or
AttributeError. -/
def malformedDrugPayload (m : MedicationAnn) : Bool :=
  match m.drug with
  | some (entry :: _) =>
      match entry.name1 with
      | some (_ :: _) => false
      | _ => true
  | _ => true

/-- The fields of a statement fixed at creation time: subject, status,
codeable-concept text, and the number of derived-by-NLP markers. -/
def seedView (med_statement : MedicationStatement) :
    String × String × Option String × Nat :=
  (med_statement.subject, med_statement.status,
   med_statement.medicationCodeableConcept.text,
   med_statement.derivedByNlpCategoryCount)

/-- A tracker entry seeded, as a fresh minimal statement, from some
medication annotation selected in `l`. -/
def seedOk (subject : String) (l : List AttributeSource)
    (e : String × TrackerEntry) : Prop :=
  ∃ m : MedicationAnn, (∃ cui_source ∈ l, firstMedAnn cui_source = some m) ∧
    seedView e.2.fhir_resource =
      (subject, "unknown", ( _get_drug_from_ann m).drugSurfaceForm, 0)

/-! ### Concrete sample inputs (used by the witness theorems) -/

/-- A sample attribute span. -/
def wAttr : Attr := ⟨1, 3, "x"⟩

/-- A medication annotation for cui "c1" with a missing drug payload. -/
def wAnn1 : MedicationAnn := ⟨"c1", none⟩

/-- An attribute source whose only source is the medication annotation `wAnn1`. -/
def wSrcMed : AttributeSource := ⟨wAttr, [("c1", AttrSourceConcept.medication wAnn1)]⟩

/-- A medication annotation for cui "c2" with a populated drug payload
(cui and surface form; no rxNormID, whose splitting is not evaluable by
the kernel). -/
def wAnn2 : MedicationAnn :=
  ⟨"c2", some [⟨some [⟨some "C123", none, some "aspirin"⟩]⟩]⟩

/-- An attribute source justified by `wAnn2`. -/
def wSrcMed2 : AttributeSource := ⟨wAttr, [("c2", AttrSourceConcept.medication wAnn2)]⟩

/-- An attribute source whose first source is not a medication annotation. -/
def wSrcOther : AttributeSource := ⟨wAttr, [("c3", AttrSourceConcept.other "concept")]⟩

/-- An attribute source with an empty sources mapping. -/
def wSrcEmpty : AttributeSource := ⟨wAttr, []⟩

/-- A second sources mapping with the same first entry as `wSrcMed` but a
different tail. -/
def wSrcMedLong : AttributeSource :=
  ⟨wAttr, [("c1", AttrSourceConcept.medication wAnn1),
           ("c3", AttrSourceConcept.other "concept")]⟩

/-- The statement tracked for "c1" after processing `wSrcMed` twice. -/
def wStatement1 : MedicationStatement :=
  ⟨"s", "unknown", ⟨none, []⟩, [⟨0, ⟨1, 3, "x"⟩⟩, ⟨1, ⟨1, 3, "x"⟩⟩], 0⟩

/-- The tracker after processing `wSrcMed` twice. -/
def wTrackerC1 : List (String × TrackerEntry) := [("c1", ⟨wStatement1, 2⟩)]

/-- The statement returned for `wSrcMed2`. -/
def wStatementC8 : MedicationStatement :=
  ⟨"s", "unknown",
   ⟨some "aspirin", [⟨UMLS_URL, "C123", some "aspirin"⟩]⟩,
   [⟨0, ⟨1, 3, "x"⟩⟩], 1⟩

/-- A condition with populated codeable-concept text. -/
def wCondPop : ConditionR := ⟨some ⟨some "chest pain"⟩⟩

/-! ### Lemmas about `append_coding` and `_add_codings_drug` -/

theorem codingKeys_mk (t : Option String) (l : List Coding) :
    codingKeys ⟨t, l⟩ = l.map fun cd => (cd.system, cd.code) := rfl

theorem append_coding_text (cc : CodeableConcept) (s c : String) (d : Option String) :
    (append_coding cc s c d).text = cc.text := by
  unfold append_coding; split <;> rfl

theorem append_coding_of_not_mem (cc : CodeableConcept) (s c : String) (d : Option String)
    (h : (s, c) ∉ codingKeys cc) :
    append_coding cc s c d = { cc with coding := cc.coding ++ [⟨s, c, d⟩] } := by
  unfold append_coding
  rw [if_neg]
  intro hany
  rw [List.any_eq_true] at hany
  obtain ⟨cd, hcd, hbeq⟩ := hany
  rw [Bool.and_eq_true, beq_iff_eq, beq_iff_eq] at hbeq
  exact h (by
    simp only [codingKeys, List.mem_map]
    exact ⟨cd, hcd, by rw [hbeq.1, hbeq.2]⟩)

theorem append_coding_nodup (cc : CodeableConcept) (s c : String) (d : Option String)
    (h : (codingKeys cc).Nodup) :
    (codingKeys (append_coding cc s c d)).Nodup := by
  unfold append_coding
  split
  · exact h
  · rename_i hany
    have hnm : (s, c) ∉ codingKeys cc := by
      intro hm
      simp only [codingKeys, List.mem_map] at hm
      obtain ⟨cd, hcd, hk⟩ := hm
      have h1 : cd.system = s := congrArg Prod.fst hk
      have h2 : cd.code = c := congrArg Prod.snd hk
      exact hany (List.any_eq_true.mpr ⟨cd, hcd, by rw [h1, h2]; simp⟩)
    simp only [codingKeys, List.map_append, List.map_cons, List.map_nil] at *
    rw [List.nodup_append]
    exact ⟨h, List.nodup_singleton _, by
      intro x hx hx1
      rw [List.mem_singleton] at hx1
      exact hnm (hx1 ▸ hx)⟩

theorem rx_fold_text (tokens : List String) (cc : CodeableConcept) :
    (tokens.foldl (fun acc code_id => append_coding acc RXNORM_URL code_id none) cc).text =
      cc.text := by
  induction tokens generalizing cc with
  | nil => rfl
  | cons t rest ih => rw [List.foldl_cons, ih, append_coding_text]

theorem rx_fold_nodup (tokens : List String) (cc : CodeableConcept)
    (h : (codingKeys cc).Nodup) :
    (codingKeys
      (tokens.foldl (fun acc code_id => append_coding acc RXNORM_URL code_id none) cc)).Nodup := by
  induction tokens generalizing cc with
  | nil => exact h
  | cons t rest ih => exact ih _ (append_coding_nodup _ _ _ _ h)

theorem rx_fold_closed (tokens : List String) (cc : CodeableConcept)
    (hnd : tokens.Nodup)
    (hdisj : ∀ t ∈ tokens, (RXNORM_URL, t) ∉ codingKeys cc) :
    tokens.foldl (fun acc code_id => append_coding acc RXNORM_URL code_id none) cc =
      { cc with coding := cc.coding ++ tokens.map fun t => ⟨RXNORM_URL, t, none⟩ } := by
  induction tokens generalizing cc with
  | nil => simp
  | cons t rest ih =>
      rw [List.foldl_cons,
        append_coding_of_not_mem _ _ _ _ (hdisj t (List.mem_cons_self t rest))]
      rw [List.nodup_cons] at hnd
      rw [ih _ hnd.2]
      · simp
      · intro u hu
        have hkeys :
            codingKeys { cc with coding := cc.coding ++ [⟨RXNORM_URL, t, none⟩] } =
              codingKeys cc ++ [(RXNORM_URL, t)] := by
          simp [codingKeys]
        rw [hkeys]
        intro hmem
        rcases List.mem_append.mp hmem with hl | hr
        · exact hdisj u (List.mem_cons_of_mem _ hu) hl
        · rw [List.mem_singleton] at hr
          have : u = t := congrArg Prod.snd hr
          exact hnd.1 (this ▸ hu)

theorem add_codings_drug_text (acd_drug : AcdDrug) (cc : CodeableConcept) :
    (_add_codings_drug acd_drug cc).text = cc.text := by
  unfold _add_codings_drug
  cases acd_drug.rxNormID with
  | none =>
      cases acd_drug.cui with
      | none => rfl
      | some c => exact append_coding_text _ _ _ _
  | some s =>
      cases acd_drug.cui with
      | none => exact rx_fold_text _ _
      | some c => rw [rx_fold_text, append_coding_text]

theorem add_codings_drug_nodup (acd_drug : AcdDrug) (cc : CodeableConcept)
    (h : (codingKeys cc).Nodup) :
    (codingKeys (_add_codings_drug acd_drug cc)).Nodup := by
  unfold _add_codings_drug
  cases acd_drug.rxNormID with
  | none =>
      cases acd_drug.cui with
      | none => exact h
      | some c => exact append_coding_nodup _ _ _ _ h
  | some s =>
      cases acd_drug.cui with
      | none => exact rx_fold_nodup _ _ h
      | some c => exact rx_fold_nodup _ _ (append_coding_nodup _ _ _ _ h)

theorem add_codings_drug_empty (cc : CodeableConcept) :
    _add_codings_drug AcdDrug.empty cc = cc := rfl

/-! ### Lemmas about the tracker operations -/

theorem hasKey_iff (c : String) (tracker : List (String × TrackerEntry)) :
    hasKey c tracker = true ↔ c ∈ trackerKeys tracker := by
  simp [hasKey, trackerKeys, List.any_eq_true, List.mem_map, beq_iff_eq]

theorem insights_add_insight (med_statement : MedicationStatement) (attr : Attr)
    (m : MedicationAnn) (iid : Nat) :
    (_add_insight_to_medication_statement med_statement attr m iid).insights =
      med_statement.insights ++ [⟨iid, ⟨attr.begin_, attr.end_, attr.covered_text⟩⟩] := rfl

theorem seedView_add_insight (med_statement : MedicationStatement) (attr : Attr)
    (m : MedicationAnn) (iid : Nat) :
    seedView (_add_insight_to_medication_statement med_statement attr m iid) =
      seedView med_statement := by
  unfold seedView _add_insight_to_medication_statement _update_codings
  simp [add_codings_drug_text]

theorem seedView_create_minimum (subject : String) (m : MedicationAnn) :
    seedView (_create_minimum_medication_statement subject m) =
      (subject, "unknown", ( _get_drug_from_ann m).drugSurfaceForm, 0) := rfl

theorem trackerKeys_addMention (attr : Attr) (m : MedicationAnn)
    (tracker : List (String × TrackerEntry)) :
    trackerKeys (addMention attr m tracker) = trackerKeys tracker := by
  induction tracker with
  | nil => rfl
  | cons e rest ih =>
      simp only [addMention, List.map_cons, trackerKeys] at *
      rw [← ih]
      congr 1
      split <;> rfl

theorem trackerKeys_trackIfNew (subject : String) (st : Nat)
    (tracker : List (String × TrackerEntry)) (m : MedicationAnn) :
    trackerKeys (trackIfNew subject st tracker m) =
      if hasKey m.cui tracker then trackerKeys tracker
      else trackerKeys tracker ++ [m.cui] := by
  unfold trackIfNew
  split
  · rfl
  · simp [trackerKeys]

theorem mem_trackerKeys_trackIfNew (subject : String) (st : Nat)
    (tracker : List (String × TrackerEntry)) (m : MedicationAnn) :
    m.cui ∈ trackerKeys (trackIfNew subject st tracker m) := by
  rw [trackerKeys_trackIfNew]
  split
  · exact (hasKey_iff _ _).mp ‹_›
  · exact List.mem_append_right _ (List.mem_singleton_self _)

theorem keys_nodup_trackIfNew (subject : String) (st : Nat)
    (tracker : List (String × TrackerEntry)) (m : MedicationAnn)
    (h : (trackerKeys tracker).Nodup) :
    (trackerKeys (trackIfNew subject st tracker m)).Nodup := by
  rw [trackerKeys_trackIfNew]
  split
  · exact h
  · rename_i hk
    rw [List.nodup_append]
    refine ⟨h, List.nodup_singleton _, ?_⟩
    intro x hx hx1
    rw [List.mem_singleton] at hx1
    subst hx1
    exact hk ((hasKey_iff _ _).mpr hx)

theorem insightsOf_append (c : String) (l1 l2 : List (String × TrackerEntry)) :
    insightsOf c (l1 ++ l2) = insightsOf c l1 + insightsOf c l2 := by
  induction l1 with
  | nil => simp [insightsOf]
  | cons e rest ih => simp [insightsOf, ih]; omega

theorem insightsOf_trackIfNew (c : String) (subject : String) (st : Nat)
    (tracker : List (String × TrackerEntry)) (m : MedicationAnn) :
    insightsOf c (trackIfNew subject st tracker m) = insightsOf c tracker := by
  unfold trackIfNew
  split
  · rfl
  · rw [insightsOf_append]
    simp [insightsOf, _create_minimum_medication_statement]

theorem insightsOf_cons (c : String) (x : String × TrackerEntry)
    (l : List (String × TrackerEntry)) :
    insightsOf c (x :: l) =
      (if x.1 = c then x.2.fhir_resource.insights.length else 0) + insightsOf c l := rfl

theorem keyCount_cons (c : String) (e : String × TrackerEntry)
    (rest : List (String × TrackerEntry)) :
    keyCount c (e :: rest) = keyCount c rest + (if e.1 = c then 1 else 0) := by
  simp only [keyCount, trackerKeys, List.map_cons, List.count_cons, beq_iff_eq]

theorem insightsOf_eq_zero_of_not_mem (c : String)
    (tracker : List (String × TrackerEntry)) (h : c ∉ trackerKeys tracker) :
    insightsOf c tracker = 0 := by
  induction tracker with
  | nil => rfl
  | cons e rest ih =>
      rw [trackerKeys, List.map_cons, List.mem_cons] at h
      push_neg at h
      rw [insightsOf_cons, if_neg (fun hc => h.1 hc.symm),
        ih (by simpa [trackerKeys] using h.2)]

theorem insightsOf_addMention (c : String) (attr : Attr) (m : MedicationAnn)
    (tracker : List (String × TrackerEntry)) :
    insightsOf c (addMention attr m tracker) =
      insightsOf c tracker + (if m.cui = c then keyCount c tracker else 0) := by
  induction tracker with
  | nil => simp [addMention, insightsOf, keyCount, trackerKeys]
  | cons e rest ih =>
      have hstep : addMention attr m (e :: rest) =
          (if e.1 = m.cui then
            (e.1,
              { fhir_resource :=
                  _add_insight_to_medication_statement e.2.fhir_resource attr m e.2.id_maker
                id_maker := e.2.id_maker + 1 })
          else e) :: addMention attr m rest := rfl
      have hlen : (_add_insight_to_medication_statement e.2.fhir_resource attr m
          e.2.id_maker).insights.length = e.2.fhir_resource.insights.length + 1 := by
        rw [insights_add_insight, List.length_append]
        rfl
      by_cases he : e.1 = m.cui
      · by_cases hc : m.cui = c
        · simp only [hstep, if_pos he, insightsOf_cons, keyCount_cons, ih, hlen,
            if_pos (he.trans hc), if_pos hc]
          omega
        · have hec : ¬ e.1 = c := fun h1 => hc (he.symm.trans h1)
          simp only [hstep, if_pos he, insightsOf_cons, keyCount_cons, ih, hlen,
            if_neg hec, if_neg hc]
          omega
      · by_cases hc : m.cui = c
        · have hec : ¬ e.1 = c := fun h1 => he (h1.trans hc.symm)
          simp only [hstep, if_neg he, insightsOf_cons, keyCount_cons, ih,
            if_neg hec, if_pos hc]
          omega
        · simp only [hstep, if_neg he, insightsOf_cons, keyCount_cons, ih, if_neg hc]
          omega

/-! ### Lemmas about the main loop -/

theorem firstMedAnn_empty (cui_source : AttributeSource)
    (h : cui_source.sources = []) : firstMedAnn cui_source = none := by
  unfold firstMedAnn; rw [h]

theorem firstMedAnn_other (cui_source : AttributeSource) (k kind : String)
    (tail : List (String × AttrSourceConcept))
    (h : cui_source.sources = (k, AttrSourceConcept.other kind) :: tail) :
    firstMedAnn cui_source = none := by
  unfold firstMedAnn; rw [h]

theorem firstMedAnn_med (cui_source : AttributeSource) (k : String)
    (m : MedicationAnn) (tail : List (String × AttrSourceConcept))
    (h : cui_source.sources = (k, AttrSourceConcept.medication m) :: tail) :
    firstMedAnn cui_source = some m := by
  unfold firstMedAnn; rw [h]

theorem countMentions_cons (c : String) (cui_source : AttributeSource)
    (rest : List AttributeSource) :
    countMentions c (cui_source :: rest) =
      countMentions c rest + (if firstMedCui cui_source = some c then 1 else 0) := by
  simp only [countMentions, List.countP_cons, decide_eq_true_eq]

theorem create_loop_nil (subject : String) (st : Nat)
    (tracker : List (String × TrackerEntry)) :
    create_loop subject st [] tracker = Except.ok tracker := rfl

theorem create_loop_cons_empty (subject : String) (st : Nat)
    (cui_source : AttributeSource) (rest : List AttributeSource)
    (tracker : List (String × TrackerEntry)) (h : cui_source.sources = []) :
    create_loop subject st (cui_source :: rest) tracker =
      create_loop subject st rest tracker := by
  simp [create_loop, processSource, h]

theorem create_loop_cons_other (subject : String) (st : Nat)
    (cui_source : AttributeSource) (rest : List AttributeSource)
    (tracker : List (String × TrackerEntry)) (k kind : String)
    (tail : List (String × AttrSourceConcept))
    (h : cui_source.sources = (k, AttrSourceConcept.other kind) :: tail) :
    create_loop subject st (cui_source :: rest) tracker =
      Except.error notImplementedMsg := by
  simp [create_loop, processSource, h]

theorem create_loop_cons_med (subject : String) (st : Nat)
    (cui_source : AttributeSource) (rest : List AttributeSource)
    (tracker : List (String × TrackerEntry)) (k : String) (m : MedicationAnn)
    (tail : List (String × AttrSourceConcept))
    (h : cui_source.sources = (k, AttrSourceConcept.medication m) :: tail) :
    create_loop subject st (cui_source :: rest) tracker =
      create_loop subject st rest
        (addMention cui_source.attr m (trackIfNew subject st tracker m)) := by
  simp [create_loop, processSource, h]

theorem loop_keys_nodup (subject : String) (st : Nat) (l : List AttributeSource) :
    ∀ tracker tracker', create_loop subject st l tracker = Except.ok tracker' →
      (trackerKeys tracker).Nodup → (trackerKeys tracker').Nodup := by
  induction l with
  | nil =>
      intro tr tr' h hn
      rw [create_loop_nil] at h
      cases h
      exact hn
  | cons cs rest ih =>
      intro tr tr' h hn
      rcases hcs : cs.sources with _ | ⟨⟨k, src⟩, tail⟩
      · rw [create_loop_cons_empty _ _ _ _ _ hcs] at h
        exact ih _ _ h hn
      · cases src with
        | other kind =>
            rw [create_loop_cons_other _ _ _ _ _ _ _ _ hcs] at h
            cases h
        | medication m =>
            rw [create_loop_cons_med _ _ _ _ _ _ _ _ hcs] at h
            refine ih _ _ h ?_
            rw [trackerKeys_addMention]
            exact keys_nodup_trackIfNew _ _ _ _ hn

theorem firstMedCui_not_of_empty (cui_source : AttributeSource) (c : String)
    (h : cui_source.sources = []) : ¬ (firstMedCui cui_source = some c) := by
  unfold firstMedCui
  rw [firstMedAnn_empty _ h]
  simp

theorem firstMedCui_not_of_other (cui_source : AttributeSource) (c : String)
    (k kind : String) (tail : List (String × AttrSourceConcept))
    (h : cui_source.sources = (k, AttrSourceConcept.other kind) :: tail) :
    ¬ (firstMedCui cui_source = some c) := by
  unfold firstMedCui
  rw [firstMedAnn_other _ _ _ _ h]
  simp

theorem firstMedCui_iff_of_med (cui_source : AttributeSource) (c : String)
    (k : String) (m : MedicationAnn) (tail : List (String × AttrSourceConcept))
    (h : cui_source.sources = (k, AttrSourceConcept.medication m) :: tail) :
    (firstMedCui cui_source = some c) ↔ m.cui = c := by
  unfold firstMedCui
  rw [firstMedAnn_med _ _ _ _ h]
  simp

theorem loop_mem (subject : String) (st : Nat) (l : List AttributeSource) :
    ∀ tracker tracker' c, create_loop subject st l tracker = Except.ok tracker' →
      (c ∈ trackerKeys tracker' ↔ c ∈ trackerKeys tracker ∨ 0 < countMentions c l) := by
  induction l with
  | nil =>
      intro tr tr' c h
      rw [create_loop_nil] at h
      cases h
      simp [countMentions]
  | cons cs rest ih =>
      intro tr tr' c h
      rcases hcs : cs.sources with _ | ⟨⟨k, src⟩, tail⟩
      · rw [create_loop_cons_empty _ _ _ _ _ hcs] at h
        rw [ih _ _ _ h, countMentions_cons,
          if_neg (firstMedCui_not_of_empty _ _ hcs), Nat.add_zero]
      · cases src with
        | other kind =>
            rw [create_loop_cons_other _ _ _ _ _ _ _ _ hcs] at h
            cases h
        | medication m =>
            rw [create_loop_cons_med _ _ _ _ _ _ _ _ hcs] at h
            rw [ih _ _ _ h, countMentions_cons]
            rw [trackerKeys_addMention, trackerKeys_trackIfNew]
            by_cases hmc : m.cui = c
            · rw [if_pos ((firstMedCui_iff_of_med _ _ _ _ _ hcs).mpr hmc)]
              subst hmc
              by_cases hk : hasKey m.cui tr
              · rw [if_pos hk]
                have hmem : m.cui ∈ trackerKeys tr := (hasKey_iff _ _).mp hk
                constructor
                · intro _; right; omega
                · intro _; exact Or.inl hmem
              · rw [if_neg hk]
                constructor
                · intro _; right; omega
                · intro _
                  exact Or.inl (List.mem_append_right _ (List.mem_singleton_self _))
            · rw [if_neg (fun hx => hmc ((firstMedCui_iff_of_med _ _ _ _ _ hcs).mp hx)),
                Nat.add_zero]
              by_cases hk : hasKey m.cui tr
              · rw [if_pos hk]
              · rw [if_neg hk]
                constructor
                · intro hh
                  rcases hh with hh | hh
                  · rcases List.mem_append.mp hh with h1 | h1
                    · exact Or.inl h1
                    · rw [List.mem_singleton] at h1
                      exact absurd h1.symm hmc
                  · exact Or.inr hh
                · intro hh
                  rcases hh with hh | hh
                  · exact Or.inl (List.mem_append_left _ hh)
                  · exact Or.inr hh

theorem cc_add_insight (med_statement : MedicationStatement) (attr : Attr)
    (m : MedicationAnn) (iid : Nat) :
    (_add_insight_to_medication_statement med_statement attr m iid).medicationCodeableConcept =
      _add_codings_drug ( _get_drug_from_ann m) med_statement.medicationCodeableConcept := rfl

theorem loop_insights (subject : String) (st : Nat) (l : List AttributeSource) :
    ∀ tracker tracker' c, create_loop subject st l tracker = Except.ok tracker' →
      (trackerKeys tracker).Nodup →
      insightsOf c tracker' = insightsOf c tracker + countMentions c l := by
  induction l with
  | nil =>
      intro tr tr' c h hn
      rw [create_loop_nil] at h
      cases h
      simp [countMentions]
  | cons cs rest ih =>
      intro tr tr' c h hn
      rcases hcs : cs.sources with _ | ⟨⟨k, src⟩, tail⟩
      · rw [create_loop_cons_empty _ _ _ _ _ hcs] at h
        rw [ih _ _ _ h hn, countMentions_cons,
          if_neg (firstMedCui_not_of_empty _ _ hcs)]
        omega
      · cases src with
        | other kind =>
            rw [create_loop_cons_other _ _ _ _ _ _ _ _ hcs] at h
            cases h
        | medication m =>
            rw [create_loop_cons_med _ _ _ _ _ _ _ _ hcs] at h
            have hn2 :
                (trackerKeys (addMention cs.attr m (trackIfNew subject st tr m))).Nodup := by
              rw [trackerKeys_addMention]
              exact keys_nodup_trackIfNew _ _ _ _ hn
            rw [ih _ _ _ h hn2, insightsOf_addMention, insightsOf_trackIfNew,
              countMentions_cons]
            by_cases hmc : m.cui = c
            · rw [if_pos hmc, if_pos ((firstMedCui_iff_of_med _ _ _ _ _ hcs).mpr hmc)]
              have h1 : keyCount c (trackIfNew subject st tr m) = 1 :=
                List.count_eq_one_of_mem (keys_nodup_trackIfNew _ _ _ _ hn)
                  (hmc ▸ mem_trackerKeys_trackIfNew subject st tr m)
              rw [h1]
              omega
            · rw [if_neg hmc,
                if_neg (fun hx => hmc ((firstMedCui_iff_of_med _ _ _ _ _ hcs).mp hx))]
              omega

theorem loop_coding (subject : String) (st : Nat) (l : List AttributeSource) :
    ∀ tracker tracker', create_loop subject st l tracker = Except.ok tracker' →
      (∀ e ∈ tracker, entryCodingOk e) → ∀ e ∈ tracker', entryCodingOk e := by
  induction l with
  | nil =>
      intro tr tr' h hok
      rw [create_loop_nil] at h
      cases h
      exact hok
  | cons cs rest ih =>
      intro tr tr' h hok
      rcases hcs : cs.sources with _ | ⟨⟨k, src⟩, tail⟩
      · rw [create_loop_cons_empty _ _ _ _ _ hcs] at h
        exact ih _ _ h hok
      · cases src with
        | other kind =>
            rw [create_loop_cons_other _ _ _ _ _ _ _ _ hcs] at h
            cases h
        | medication m =>
            rw [create_loop_cons_med _ _ _ _ _ _ _ _ hcs] at h
            refine ih _ _ h ?_
            intro e he
            unfold addMention at he
            rcases List.mem_map.mp he with ⟨e0, he0, rfl⟩
            have base : entryCodingOk e0 := by
              unfold trackIfNew at he0
              split at he0
              · exact hok _ he0
              · rcases List.mem_append.mp he0 with h1 | h1
                · exact hok _ h1
                · rw [List.mem_singleton] at h1
                  subst h1
                  simp [entryCodingOk, _create_minimum_medication_statement, codingKeys]
            by_cases hk : e0.1 = m.cui
            · simp only [if_pos hk]
              unfold entryCodingOk at *
              rw [cc_add_insight]
              exact add_codings_drug_nodup _ _ base
            · simp only [if_neg hk]
              exact base

theorem seedOk_mono (subject : String) (cui_source : AttributeSource)
    (rest : List AttributeSource) (e : String × TrackerEntry)
    (h : seedOk subject rest e) : seedOk subject (cui_source :: rest) e := by
  rcases h with ⟨m, ⟨c0, hc0, hf⟩, hview⟩
  exact ⟨m, ⟨c0, List.mem_cons_of_mem _ hc0, hf⟩, hview⟩

theorem loop_seed (subject : String) (st : Nat) (l : List AttributeSource) :
    ∀ tracker tracker', create_loop subject st l tracker = Except.ok tracker' →
      ∀ e' ∈ tracker',
        (∃ e ∈ tracker, seedView e'.2.fhir_resource = seedView e.2.fhir_resource) ∨
          seedOk subject l e' := by
  induction l with
  | nil =>
      intro tr tr' h e' he'
      rw [create_loop_nil] at h
      cases h
      exact Or.inl ⟨e', he', rfl⟩
  | cons cs rest ih =>
      intro tr tr' h e' he'
      rcases hcs : cs.sources with _ | ⟨⟨k, src⟩, tail⟩
      · rw [create_loop_cons_empty _ _ _ _ _ hcs] at h
        rcases ih _ _ h e' he' with h1 | h1
        · exact Or.inl h1
        · exact Or.inr (seedOk_mono _ _ _ _ h1)
      · cases src with
        | other kind =>
            rw [create_loop_cons_other _ _ _ _ _ _ _ _ hcs] at h
            cases h
        | medication m =>
            rw [create_loop_cons_med _ _ _ _ _ _ _ _ hcs] at h
            rcases ih _ _ h e' he' with ⟨e, he, hv⟩ | h1
            · unfold addMention at he
              rcases List.mem_map.mp he with ⟨e0, he0, rfl⟩
              have hv0 :
                  seedView ((if e0.1 = m.cui then
                      (e0.1,
                        { fhir_resource :=
                            _add_insight_to_medication_statement e0.2.fhir_resource
                              cs.attr m e0.2.id_maker
                          id_maker := e0.2.id_maker + 1 })
                    else e0) : String × TrackerEntry).2.fhir_resource =
                    seedView e0.2.fhir_resource := by
                by_cases hk : e0.1 = m.cui
                · simp only [if_pos hk]
                  exact seedView_add_insight _ _ _ _
                · simp only [if_neg hk]
              rw [hv0] at hv
              unfold trackIfNew at he0
              split at he0
              · exact Or.inl ⟨e0, he0, hv⟩
              · rcases List.mem_append.mp he0 with h2 | h2
                · exact Or.inl ⟨e0, h2, hv⟩
                · rw [List.mem_singleton] at h2
                  subst h2
                  right
                  refine ⟨m, ⟨cs, List.mem_cons_self _ _,
                    firstMedAnn_med _ _ _ _ hcs⟩, ?_⟩
                  rw [hv]
                  exact seedView_create_minimum subject m
            · exact Or.inr (seedOk_mono _ _ _ _ h1)

theorem badFirst_empty (cui_source : AttributeSource)
    (h : cui_source.sources = []) : badFirst cui_source = false := by
  unfold badFirst; rw [h]

theorem badFirst_med (cui_source : AttributeSource) (k : String)
    (m : MedicationAnn) (tail : List (String × AttrSourceConcept))
    (h : cui_source.sources = (k, AttrSourceConcept.medication m) :: tail) :
    badFirst cui_source = false := by
  unfold badFirst; rw [h]

theorem loop_empty_sources (subject : String) (st : Nat) :
    ∀ l : List AttributeSource, (∀ cs ∈ l, cs.sources = []) →
      ∀ tracker, create_loop subject st l tracker = Except.ok tracker := by
  intro l
  induction l with
  | nil => intro _ tr; rfl
  | cons cs rest ih =>
      intro h tr
      rw [create_loop_cons_empty _ _ _ _ _ (h cs (List.mem_cons_self _ _))]
      exact ih (fun c hc => h c (List.mem_cons_of_mem _ hc)) tr

theorem loop_error_of_bad (subject : String) (st : Nat) :
    ∀ l : List AttributeSource, (∃ cs ∈ l, badFirst cs = true) →
      ∀ tracker, create_loop subject st l tracker = Except.error notImplementedMsg := by
  intro l
  induction l with
  | nil =>
      rintro ⟨cs, hmem, _⟩
      cases hmem
  | cons cs rest ih =>
      intro h tr
      rcases hcs : cs.sources with _ | ⟨⟨k, src⟩, tail⟩
      · rw [create_loop_cons_empty _ _ _ _ _ hcs]
        refine ih ?_ tr
        rcases h with ⟨c0, hc0, hbad⟩
        rcases List.mem_cons.mp hc0 with rfl | h0
        · rw [badFirst_empty _ hcs] at hbad
          cases hbad
        · exact ⟨c0, h0, hbad⟩
      · cases src with
        | other kind => exact create_loop_cons_other _ _ _ _ _ _ _ _ hcs
        | medication m =>
            rw [create_loop_cons_med _ _ _ _ _ _ _ _ hcs]
            refine ih ?_ _
            rcases h with ⟨c0, hc0, hbad⟩
            rcases List.mem_cons.mp hc0 with rfl | h0
            · rw [badFirst_med _ _ _ _ hcs] at hbad
              cases hbad
            · exact ⟨c0, h0, hbad⟩

theorem insightsOf_single (c : String) :
    ∀ tracker : List (String × TrackerEntry), keyCount c tracker = 1 →
      ∀ e ∈ tracker, e.1 = c →
        insightsOf c tracker = e.2.fhir_resource.insights.length := by
  intro tr
  induction tr with
  | nil =>
      intro _ e he
      cases he
  | cons x rest ih =>
      intro h1 e he hec
      rw [keyCount_cons] at h1
      rw [insightsOf_cons]
      rcases List.mem_cons.mp he with rfl | hmem
      · rw [if_pos hec] at h1 ⊢
        have h0 : keyCount c rest = 0 := by omega
        rw [insightsOf_eq_zero_of_not_mem _ _ (List.count_eq_zero.mp h0)]
        omega
      · by_cases hx : x.1 = c
        · rw [if_pos hx] at h1
          have h0 : keyCount c rest = 0 := by omega
          have hcm : c ∈ trackerKeys rest := List.mem_map.mpr ⟨e, hmem, hec⟩
          exact absurd hcm (List.count_eq_zero.mp h0)
        · rw [if_neg hx] at h1 ⊢
          rw [Nat.add_zero] at h1
          rw [ih h1 e hmem hec]
          omega

theorem create_loop_cons (subject : String) (st : Nat) (cui_source : AttributeSource)
    (rest : List AttributeSource) (tracker : List (String × TrackerEntry)) :
    create_loop subject st (cui_source :: rest) tracker =
      match processSource subject st tracker cui_source with
      | Except.error e => Except.error e
      | Except.ok t => create_loop subject st rest t := rfl

theorem create_unfold (subject : String) (st : Nat) (l : List AttributeSource) :
    create_med_statements_from_insights subject st l =
      match create_loop subject st l [] with
      | Except.error e => Except.error e
      | Except.ok tracker =>
          if tracker.isEmpty then Except.ok none
          else
            Except.ok (some ((tracker.map fun e => e.2.fhir_resource).map
              append_derived_by_nlp_category_extension)) := rfl

theorem processSource_congr (subject : String) (st : Nat)
    (tracker : List (String × TrackerEntry)) (cs cs' : AttributeSource)
    (ha : cs.attr = cs'.attr) (hh : cs.sources.head? = cs'.sources.head?) :
    processSource subject st tracker cs = processSource subject st tracker cs' := by
  rcases h1 : cs.sources with _ | ⟨⟨k, src⟩, tail⟩ <;>
    rcases h2 : cs'.sources with _ | ⟨⟨k', src'⟩, tail'⟩ <;>
      rw [h1, h2] at hh <;> simp only [List.head?] at hh
  · simp [processSource, h1, h2]
  · cases hh
  · cases hh
  · rw [Option.some.injEq] at hh
    injection hh with hk hsrc
    subst hsrc
    cases src with
    | other kind => simp [processSource, h1, h2]
    | medication m => simp [processSource, h1, h2, ha]

theorem loop_congr (subject : String) (st : Nat) :
    ∀ l l' : List AttributeSource,
      l.map (fun cs => (cs.attr, cs.sources.head?)) =
        l'.map (fun cs => (cs.attr, cs.sources.head?)) →
      ∀ tracker, create_loop subject st l tracker = create_loop subject st l' tracker := by
  intro l
  induction l with
  | nil =>
      intro l' h tr
      cases l' with
      | nil => rfl
      | cons a b => simp at h
  | cons cs rest ih =>
      intro l' h tr
      cases l' with
      | nil => simp at h
      | cons cs' rest' =>
          rw [List.map_cons, List.map_cons] at h
          injection h with hhead htail
          injection hhead with ha hh
          rw [create_loop_cons, create_loop_cons,
            processSource_congr subject st tr cs cs' ha hh]
          cases hps : processSource subject st tr cs' with
          | error e => simp [hps]
          | ok t =>
              simp only [hps]
              exact ih rest' htail t

/-! ### Claim theorems -/

/-- Claim C1: when one call to the builder loop processes N ≥ 1 mentions of
the same concept identifier (each justified by a usable medication
annotation) and the loop finishes, exactly one medication statement is
tracked for that cui, the call returns exactly the tracked statements
tagged with the derived-by-NLP category extension, the statement's coding
list holds at most one entry per distinct (system, code) pair, and exactly
N insight records are attached to it. -/
theorem claim_C1 (subject : String) (st : Nat) (l : List AttributeSource)
    (c : String) (tracker : List (String × TrackerEntry))
    (hok : create_loop subject st l [] = Except.ok tracker)
    (hN : 0 < countMentions c l) :
    keyCount c tracker = 1 ∧
    create_med_statements_from_insights subject st l =
      Except.ok (some ((tracker.map fun e => e.2.fhir_resource).map
        append_derived_by_nlp_category_extension)) ∧
    ∀ e ∈ tracker, e.1 = c →
      (codingKeys e.2.fhir_resource.medicationCodeableConcept).Nodup ∧
      e.2.fhir_resource.insights.length = countMentions c l := by
  have hnil : (trackerKeys ([] : List (String × TrackerEntry))).Nodup := List.nodup_nil
  have hnodup := loop_keys_nodup subject st l [] tracker hok hnil
  have hmem : c ∈ trackerKeys tracker := by
    rw [loop_mem subject st l [] tracker c hok]
    exact Or.inr hN
  have hcount : keyCount c tracker = 1 := List.count_eq_one_of_mem hnodup hmem
  have hne : tracker.isEmpty = false := by
    cases tracker with
    | nil => simp [trackerKeys] at hmem
    | cons a b => rfl
  refine ⟨hcount, ?_, ?_⟩
  · rw [create_unfold]
    simp only [hok]
    rw [if_neg (by simp [hne])]
  · intro e he hec
    refine ⟨loop_coding subject st l [] tracker hok
      (fun e' he' => absurd he' (List.not_mem_nil e')) e he, ?_⟩
    have hins := loop_insights subject st l [] tracker c hok hnil
    rw [insightsOf_single c tracker hcount e he hec] at hins
    simpa [insightsOf] using hins

/-- Witness for C1: two mentions of cui "c1" yield one tracked statement
with two insights and a duplicate-free (empty) coding list. -/
theorem claim_C1_witness :
    (create_loop "s" 0 [wSrcMed, wSrcMed] [] = Except.ok wTrackerC1 ∧
      0 < countMentions "c1" [wSrcMed, wSrcMed]) ∧
    (keyCount "c1" wTrackerC1 = 1 ∧
     create_med_statements_from_insights "s" 0 [wSrcMed, wSrcMed] =
       Except.ok (some ((wTrackerC1.map fun e => e.2.fhir_resource).map
         append_derived_by_nlp_category_extension)) ∧
     ∀ e ∈ wTrackerC1, e.1 = "c1" →
       (codingKeys e.2.fhir_resource.medicationCodeableConcept).Nodup ∧
       e.2.fhir_resource.insights.length = countMentions "c1" [wSrcMed, wSrcMed]) :=
  ⟨⟨rfl, by decide⟩, claim_C1 "s" 0 [wSrcMed, wSrcMed] "c1" wTrackerC1 rfl (by decide)⟩

/-- Claim C2: when some attribute source has a non-empty sources mapping
whose first annotation is not a medication annotation, the builder raises
the unsupported-source-kind error, which propagates to the caller, and no
derived records are returned. -/
theorem claim_C2 (subject : String) (st : Nat) (l : List AttributeSource)
    (h : ∃ cs ∈ l, badFirst cs = true) :
    create_med_statements_from_insights subject st l =
      Except.error notImplementedMsg := by
  rw [create_unfold]
  simp only [loop_error_of_bad subject st l h []]

/-- Witness for C2: a batch containing one non-medication-first source
errors out. -/
theorem claim_C2_witness :
    (∃ cs ∈ [wSrcMed, wSrcOther], badFirst cs = true) ∧
    create_med_statements_from_insights "s" 0 [wSrcMed, wSrcOther] =
      Except.error notImplementedMsg :=
  ⟨⟨wSrcOther, by decide, rfl⟩,
   claim_C2 "s" 0 [wSrcMed, wSrcOther] ⟨wSrcOther, by decide, rfl⟩⟩

/-- Claim C3: when every attribute source has an empty sources mapping the
tracker stays empty, the builder returns the absent result (None, not an
empty list) and does not raise. -/
theorem claim_C3 (subject : String) (st : Nat) (l : List AttributeSource)
    (h : ∀ cs ∈ l, cs.sources = []) :
    create_loop subject st l [] = Except.ok [] ∧
    create_med_statements_from_insights subject st l = Except.ok none := by
  have h1 := loop_empty_sources subject st l h []
  refine ⟨h1, ?_⟩
  rw [create_unfold]
  simp only [h1]
  rfl

/-- Witness for C3 at a single attribute source with no sources. -/
theorem claim_C3_witness :
    (∀ cs ∈ [wSrcEmpty], cs.sources = []) ∧
    (create_loop "s" 0 [wSrcEmpty] [] = Except.ok [] ∧
     create_med_statements_from_insights "s" 0 [wSrcEmpty] = Except.ok none) :=
  ⟨by decide, claim_C3 "s" 0 [wSrcEmpty] (by decide)⟩

/-- Counterexample for C4: an AllergyIntolerance whose codeable-concept
field is absent (None) makes the concept locator raise an AttributeError,
contradicting the claim that it yields zero ConceptReferences rather than
an error. -/
theorem claim_C4_counterexample :
    _get_allergy_intolerance_concepts_to_analyze ⟨none⟩ =
      Except.error attributeErrMsg := rfl

/-- Claim C4 (amended): a Condition with an absent code or empty/null text
yields zero ConceptReferences without error, and an AllergyIntolerance
with a present code but empty/null text yields zero ConceptReferences
without error; but an AllergyIntolerance whose code field is absent (None)
raises an AttributeError instead of returning zero ConceptReferences. -/
theorem claim_C4_amended :
    (∀ c : ConditionR, (¬ ∃ cc, c.code = some cc ∧ pyTruthyText cc.text = true) →
       _get_condition_concepts_to_analyze c = []) ∧
    (∀ (a : AllergyIntoleranceR) (cc : CodeableConceptF), a.code = some cc →
       pyTruthyText cc.text = false →
       _get_allergy_intolerance_concepts_to_analyze a = Except.ok []) ∧
    (∀ a : AllergyIntoleranceR, a.code = none →
       _get_allergy_intolerance_concepts_to_analyze a =
         Except.error attributeErrMsg) := by
  refine ⟨?_, ?_, ?_⟩
  · intro c h
    rcases hc : c.code with _ | cc
    · simp [_get_condition_concepts_to_analyze, hc]
    · have ht : pyTruthyText cc.text = false := by
        by_contra hne
        exact h ⟨cc, hc, by revert hne; cases pyTruthyText cc.text <;> simp⟩
      simp [_get_condition_concepts_to_analyze, hc, ht]
  · intro a cc hcode ht
    simp [_get_allergy_intolerance_concepts_to_analyze, hcode, ht]
  · intro a hcode
    simp [_get_allergy_intolerance_concepts_to_analyze, hcode]

/-- Witness for the amended C4 at concrete records. -/
theorem claim_C4_witness :
    _get_condition_concepts_to_analyze ⟨none⟩ = [] ∧
    _get_allergy_intolerance_concepts_to_analyze ⟨some ⟨some ""⟩⟩ = Except.ok [] ∧
    _get_allergy_intolerance_concepts_to_analyze ⟨none⟩ =
      Except.error attributeErrMsg :=
  ⟨claim_C4_amended.1 ⟨none⟩ (by rintro ⟨cc, hcc, _⟩; cases hcc),
   claim_C4_amended.2.1 ⟨some ⟨some ""⟩⟩ ⟨some ""⟩ rfl rfl,
   claim_C4_amended.2.2 ⟨none⟩ rfl⟩

/-- Claim C5: a medication annotation whose nested drug payload is
malformed is recovered locally: the extraction returns the empty dict, the
insight record for the mention is still attached while no coding entry is
added, and processing the mention returns normally. -/
theorem claim_C5 (m : MedicationAnn) (h : malformedDrugPayload m = true) :
    _get_drug_from_ann m = AcdDrug.empty ∧
    (∀ (med_statement : MedicationStatement) (attr : Attr) (iid : Nat),
      (_add_insight_to_medication_statement med_statement attr m iid).insights =
        med_statement.insights ++
          [⟨iid, ⟨attr.begin_, attr.end_, attr.covered_text⟩⟩] ∧
      (_add_insight_to_medication_statement med_statement attr m
          iid).medicationCodeableConcept =
        med_statement.medicationCodeableConcept) ∧
    (∀ (subject : String) (st : Nat) (tracker : List (String × TrackerEntry))
        (attr : Attr) (k : String) (tail : List (String × AttrSourceConcept)),
      ∃ t, processSource subject st tracker
          ⟨attr, (k, AttrSourceConcept.medication m) :: tail⟩ = Except.ok t) := by
  have hd : _get_drug_from_ann m = AcdDrug.empty := by
    rcases hdr : m.drug with _ | le
    · simp [_get_drug_from_ann, hdr]
    · cases le with
      | nil => simp [_get_drug_from_ann, hdr]
      | cons entry rest =>
          rcases hn1 : entry.name1 with _ | ld
          · simp [_get_drug_from_ann, hdr, hn1]
          · cases ld with
            | nil => simp [_get_drug_from_ann, hdr, hn1]
            | cons d ds =>
                exfalso
                simp [malformedDrugPayload, hdr, hn1] at h
  refine ⟨hd, ?_, ?_⟩
  · intro med_statement attr iid
    refine ⟨insights_add_insight _ _ _ _, ?_⟩
    rw [cc_add_insight, hd, add_codings_drug_empty]
  · intro subject st tracker attr k tail
    exact ⟨_, rfl⟩

/-- Witness for C5 at the annotation with a missing drug payload. -/
theorem claim_C5_witness :
    malformedDrugPayload wAnn1 = true ∧
    _get_drug_from_ann wAnn1 = AcdDrug.empty ∧
    ((_add_insight_to_medication_statement wStatement1 wAttr wAnn1 7).insights =
        wStatement1.insights ++
          [⟨7, ⟨wAttr.begin_, wAttr.end_, wAttr.covered_text⟩⟩] ∧
      (_add_insight_to_medication_statement wStatement1 wAttr wAnn1
          7).medicationCodeableConcept =
        wStatement1.medicationCodeableConcept) ∧
    ∃ t, processSource "s" 0 []
        ⟨wAttr, ("c1", AttrSourceConcept.medication wAnn1) :: []⟩ = Except.ok t :=
  ⟨rfl, (claim_C5 wAnn1 rfl).1,
   (claim_C5 wAnn1 rfl).2.1 wStatement1 wAttr 7,
   (claim_C5 wAnn1 rfl).2.2 "s" 0 [] wAttr "c1" []⟩

/-- Claim C6: the builder consumes only the attribute and the first entry
of each sources mapping, so any two inputs agreeing on those (in
particular two runs over the same input, or inputs differing only in
later candidates for the same concept) produce the same result. -/
theorem claim_C6 (subject : String) (st : Nat) (l l' : List AttributeSource)
    (h : l.map (fun cs => (cs.attr, cs.sources.head?)) =
      l'.map (fun cs => (cs.attr, cs.sources.head?))) :
    create_med_statements_from_insights subject st l =
      create_med_statements_from_insights subject st l' := by
  rw [create_unfold, create_unfold, loop_congr subject st l l' h []]

/-- Witness for C6: dropping the unused second candidate of a sources
mapping does not change the result. -/
theorem claim_C6_witness :
    ([wSrcMedLong].map (fun cs => (cs.attr, cs.sources.head?)) =
      [wSrcMed].map (fun cs => (cs.attr, cs.sources.head?))) ∧
    create_med_statements_from_insights "s" 0 [wSrcMedLong] =
      create_med_statements_from_insights "s" 0 [wSrcMed] :=
  ⟨by decide, claim_C6 "s" 0 [wSrcMedLong] [wSrcMed] (by decide)⟩

/-- Claim C7: a resource whose runtime class has no entry in the
concept-extractor dispatch mapping yields an empty sequence and no error;
no extractor is invoked for it. -/
theorem claim_C7 (r : Resource)
    (h : ∀ e ∈ _concept_extractors, e.1 ≠ r.runtimeClass) :
    get_concepts_for_nlp_analysis r none = Except.ok [] := by
  unfold get_concepts_for_nlp_analysis
  have hf : (_concept_extractors.find? fun e => decide (e.1 = r.runtimeClass)) =
      none := by
    rw [List.find?_eq_none]
    intro e he
    simp [h e he]
  simp [hf]

/-- Witness for C7 at a Patient-like resource class. -/
theorem claim_C7_witness :
    (∀ e ∈ _concept_extractors, e.1 ≠ RClass.otherClass "Patient") ∧
    get_concepts_for_nlp_analysis
      ⟨RClass.otherClass "Patient", ResourceData.otherResource "patient"⟩ none =
      Except.ok [] :=
  ⟨by decide,
   claim_C7 ⟨RClass.otherClass "Patient", ResourceData.otherResource "patient"⟩
     (by decide)⟩

/-- Claim C8: every returned statement carries the derived-by-NLP category
extension exactly once, has status "unknown" and the given subject, and
its codeable-concept text is seeded from the drug surface form of one of
the selected medication annotations. -/
theorem claim_C8 (subject : String) (st : Nat) (l : List AttributeSource)
    (stmts : List MedicationStatement)
    (hok : create_med_statements_from_insights subject st l =
      Except.ok (some stmts)) :
    ∀ s ∈ stmts,
      s.derivedByNlpCategoryCount = 1 ∧
      s.status = "unknown" ∧
      s.subject = subject ∧
      ∃ m : MedicationAnn, (∃ cui_source ∈ l, firstMedAnn cui_source = some m) ∧
        s.medicationCodeableConcept.text = ( _get_drug_from_ann m).drugSurfaceForm := by
  rw [create_unfold] at hok
  cases hloop : create_loop subject st l [] with
  | error e => simp [hloop] at hok
  | ok tracker =>
      simp only [hloop] at hok
      by_cases hemp : tracker.isEmpty = true
      · rw [if_pos hemp] at hok
        simp at hok
      · rw [if_neg hemp] at hok
        have hstmts : stmts = (tracker.map fun e => e.2.fhir_resource).map
            append_derived_by_nlp_category_extension :=
          (Option.some.inj (Except.ok.inj hok)).symm
        subst hstmts
        intro s hs
        rcases List.mem_map.mp hs with ⟨st0, hst0, rfl⟩
        rcases List.mem_map.mp hst0 with ⟨e, he, rfl⟩
        rcases loop_seed subject st l [] tracker hloop e he with ⟨e0, he0, _⟩ | hseed
        · cases he0
        · rcases hseed with ⟨m, hm, hview⟩
          have hsub : e.2.fhir_resource.subject = subject :=
            congrArg (fun p => p.1) hview
          have hst : e.2.fhir_resource.status = "unknown" :=
            congrArg (fun p => p.2.1) hview
          have htx : e.2.fhir_resource.medicationCodeableConcept.text =
              ( _get_drug_from_ann m).drugSurfaceForm :=
            congrArg (fun p => p.2.2.1) hview
          have hct : e.2.fhir_resource.derivedByNlpCategoryCount = 0 :=
            congrArg (fun p => p.2.2.2) hview
          refine ⟨?_, hst, hsub, m, hm, htx⟩
          simp [append_derived_by_nlp_category_extension, hct]

/-- Witness for C8 at a single mention with a full drug payload. -/
theorem claim_C8_witness :
    create_med_statements_from_insights "s" 0 [wSrcMed2] =
      Except.ok (some [wStatementC8]) ∧
    ∀ s ∈ [wStatementC8],
      s.derivedByNlpCategoryCount = 1 ∧
      s.status = "unknown" ∧
      s.subject = "s" ∧
      ∃ m : MedicationAnn, (∃ cui_source ∈ [wSrcMed2], firstMedAnn cui_source = some m) ∧
        s.medicationCodeableConcept.text = ( _get_drug_from_ann m).drugSurfaceForm :=
  ⟨rfl, claim_C8 "s" 0 [wSrcMed2] [wStatementC8] rfl⟩

/-- Claim C9: starting from a fresh codeable concept, a present `cui` is
appended unsplit as a single UMLS coding whose display is the drug surface
form; a present `rxNormID` contributes one RxNorm coding per
comma-separated token; a drug with neither key contributes no codings. -/
theorem claim_C9 (d : AcdDrug) (t : Option String)
    (hnd : ∀ s, d.rxNormID = some s → (s.splitOn ",").Nodup) :
    _add_codings_drug d ⟨t, []⟩ =
      ⟨t,
        (match d.cui with
         | some c => [⟨UMLS_URL, c, d.drugSurfaceForm⟩]
         | none => []) ++
        (match d.rxNormID with
         | some s => (s.splitOn ",").map fun code_id => ⟨RXNORM_URL, code_id, none⟩
         | none => [])⟩ := by
  rcases hc : d.cui with _ | c <;> rcases hr : d.rxNormID with _ | s
  · simp [_add_codings_drug, hc, hr]
  · have hfold := rx_fold_closed (s.splitOn ",") ⟨t, []⟩ (hnd s hr)
      (by intro u hu; simp [codingKeys])
    simp [_add_codings_drug, hc, hr, hfold]
  · have hap := append_coding_of_not_mem ⟨t, []⟩ UMLS_URL c d.drugSurfaceForm
      (by simp [codingKeys])
    simp [_add_codings_drug, hc, hr, hap]
  · have hap := append_coding_of_not_mem ⟨t, []⟩ UMLS_URL c d.drugSurfaceForm
      (by simp [codingKeys])
    have hfold := rx_fold_closed (s.splitOn ",")
        ⟨t, [⟨UMLS_URL, c, d.drugSurfaceForm⟩]⟩ (hnd s hr)
      (by
        intro u hu hmem
        rw [codingKeys_mk] at hmem
        simp at hmem
        exact absurd hmem.1 (by decide))
    simp [_add_codings_drug, hc, hr, hap, hfold]

/-- Witness for C9 at a drug payload carrying a cui and no rxNormID. -/
theorem claim_C9_witness :
    (∀ s, (AcdDrug.mk (some "C123") none (some "aspirin")).rxNormID =
        some s → (s.splitOn ",").Nodup) ∧
    _add_codings_drug ⟨some "C123", none, some "aspirin"⟩
        ⟨some "aspirin", []⟩ =
      ⟨some "aspirin", [⟨UMLS_URL, "C123", some "aspirin"⟩]⟩ := by
  have hnd : ∀ s, (AcdDrug.mk (some "C123") none
      (some "aspirin")).rxNormID = some s → (s.splitOn ",").Nodup := by
    intro s hs
    cases hs
  refine ⟨hnd, ?_⟩
  have h9 := claim_C9 ⟨some "C123", none, some "aspirin"⟩ (some "aspirin") hnd
  simpa using h9

/-- Claim C10: dispatch is keyed by the exact runtime class, so an
instance of a proper subclass of Condition is treated as unrecognized and
yields an empty sequence even when its text-bearing field is populated,
while the same data under the exact Condition class yields a non-empty
one. -/
theorem claim_C10 (c : ConditionR)
    (hpop : _get_condition_concepts_to_analyze c ≠ []) :
    get_concepts_for_nlp_analysis
        ⟨RClass.conditionSubclass, ResourceData.condition c⟩ none =
      Except.ok [] ∧
    get_concepts_for_nlp_analysis
        ⟨RClass.conditionClass, ResourceData.condition c⟩ none ≠
      Except.ok [] := by
  constructor
  · rfl
  · intro hbad
    have heq : get_concepts_for_nlp_analysis
        ⟨RClass.conditionClass, ResourceData.condition c⟩ none =
        Except.ok (_get_condition_concepts_to_analyze c) := rfl
    rw [heq] at hbad
    exact hpop (Except.ok.inj hbad)

/-- Witness for C10 at a condition with populated text. -/
theorem claim_C10_witness :
    _get_condition_concepts_to_analyze wCondPop ≠ [] ∧
    (get_concepts_for_nlp_analysis
        ⟨RClass.conditionSubclass, ResourceData.condition wCondPop⟩ none =
      Except.ok [] ∧
     get_concepts_for_nlp_analysis
        ⟨RClass.conditionClass, ResourceData.condition wCondPop⟩ none ≠
      Except.ok []) :=
  ⟨by decide, claim_C10 wCondPop (by decide)⟩

end NlpInsights
